import Mathlib

/-!
Shallow embedding of a chess-game import backend (src/main.py together with
src/schemas.py).  The service pulls game records from two upstream platforms
(chess.com monthly archives and the lichess NDJSON stream), normalizes them
into one `Game` schema, de-duplicates on the (source, pgn) pair, persists
them, and serves a filtered listing endpoint plus a demo-session stub.

Modelling choices:
- upstream HTTP responses are passed in explicitly (status codes and bodies);
- the document store is a list of `Game` records threaded through and
  returned; the Persistence Gateway itself (the `database` module) is not part
  of the sources, so its three operations are modelled from the spec;
- each import also returns the ordered log of upstream URLs it requested;
- timestamps are modelled as integer epoch seconds;
- a Python exception escaping the handler is an `ApiError.pyError` value.
-/

deriving instance DecidableEq for Except

/-- Python whitespace, at the ASCII level relevant here: the characters
`str.strip` removes by default. -/
def pyIsSpace (c : Char) : Bool :=
  c == ' ' || c == '\t' || c == '\n' || c == '\r' || c == '\x0b' || c == '\x0c'

/-- Python `s.strip()`: drop leading and trailing whitespace.  (Usernames on
both platforms are ASCII, so the ASCII whitespace set suffices.) -/
def pyStrip (s : String) : String :=
  ⟨((s.data.dropWhile pyIsSpace).reverse.dropWhile pyIsSpace).reverse⟩

/-- Python `s.lower()` at the ASCII level (platform usernames are ASCII). -/
def pyLower (s : String) : String :=
  ⟨s.data.map Char.toLower⟩

/-- Python truthiness of an optional string: `None` and `""` are falsy. -/
def pyTruthyStr : Option String → Bool
  | none => false
  | some s => s ≠ ""

/-- Python `x or None` on an optional string value. -/
def pyOrNone (s : Option String) : Option String :=
  if pyTruthyStr s then s else none

/-- Python `a or b` on two optional string values. -/
def pyOrStr (a b : Option String) : Option String :=
  if pyTruthyStr a then a else b

/-- Python `v or d` for an optional integer `v`: `None` and `0` are falsy. -/
def pyOr (v : Option Nat) (d : Nat) : Nat :=
  match v with
  | none => d
  | some n => if n = 0 then d else n

/-- A JSON scalar value, as needed to model the Python coercion `bool(v)`. -/
inductive JVal
  | jnull
  | jbool (b : Bool)
  | jnum (n : Int)
  | jstr (s : String)
  deriving DecidableEq

/-- Python `bool(v)` on a JSON scalar. -/
def JVal.pyBool : JVal → Bool
  | .jnull => false
  | .jbool b => b
  | .jnum n => n ≠ 0
  | .jstr s => s ≠ ""

/-- The persisted game record (src/schemas.py, class `Game`). -/
structure Game where
  source : String
  username : String
  white : Option String
  black : Option String
  pgn : String
  rated : Option Bool
  speed : Option String
  time_control : Option String
  result : Option String
  end_time : Option Int
  opening : Option String
  deriving DecidableEq

/-- The stored "game" collection, in insertion order. -/
abbrev Store := List Game

/-- Modelled from the spec: `find_one` of the Persistence Gateway (the
`database` module is not among the sources).  Per spec 4.1 it returns the
first record matching an exact-field filter mapping, or "not found";
the imports only use it with the filter on source and pgn and only test
existence, so we model that existence test. -/
def find_one (st : Store) (src pgnKey : String) : Bool :=
  st.any (fun d => d.source == src && d.pgn == pgnKey)

/-- Modelled from the spec: `create_document` of the Persistence Gateway
appends the record to the named collection (spec 4.1); callers ignore its
return value. -/
def create_document (st : Store) (g : Game) : Store :=
  st ++ [g]

/-- A chess.com player object inside an archive game record.  `some` means
the JSON object is present and truthy (non-empty); `none` covers an absent
key, a null value and an empty object, which lines 95-97 of src/main.py all
treat alike via `or` defaulting and the truthiness guard. -/
structure CCPlayer where
  username : Option String
  result : Option String
  deriving DecidableEq

/-- A chess.com archive game record, restricted to the fields the import
reads.  `time_control` is modelled by its string form (the code applies
`str`, the identity on strings); `end_time` is `some` exactly when the JSON
field is an integer (the code checks `isinstance(end_time, int)`). -/
structure CCGame where
  pgn : Option String
  white : Option CCPlayer
  black : Option CCPlayer
  time_control : Option String
  time_class : Option String
  end_time : Option Int
  rated : Option Bool
  deriving DecidableEq

/-- An unhandled Python exception kind reachable in the embedded code. -/
inductive PyErr
  | typeError
  deriving DecidableEq

/-- Line 97 of src/main.py: the `result` string is the concatenation
`white.result + "/" + black.result` guarded by the truthiness of the white
and black objects; when the guard holds but either result field is missing,
Python evaluates `None + str` or `str + None` and raises `TypeError`. -/
def ccResult (white black : Option CCPlayer) : Except PyErr (Option String) :=
  match white, black with
  | some w, some b =>
      match w.result, b.result with
      | some wr, some br => .ok (some (wr ++ "/" ++ br))
      | _, _ => .error .typeError
  | _, _ => .ok none

/-- Lines 95-120 of src/main.py: build the normalized `Game` document for one
chess.com archive game (after the pgn guard has supplied `pgnText`). -/
def ccExtract (username pgnText : String) (g : CCGame) : Except PyErr Game :=
  match ccResult g.white g.black with
  | .error e => .error e
  | .ok res =>
      .ok { source := "chesscom"
          , username := username
          , white := pyOrNone ((g.white.getD { username := none, result := none }).username)
          , black := pyOrNone ((g.black.getD { username := none, result := none }).username)
          , pgn := pgnText
          , rated := g.rated
          , speed := g.time_class
          , time_control := g.time_control
          , result := res
          , end_time := g.end_time
          , opening := none }

/-- The inner game loop of `import_chesscom` (lines 89-122): stop once the
inserted count reaches `limit`; skip games without pgn text; extract; skip
duplicates of the (chesscom, pgn) key; otherwise insert and count. -/
def ccGames (username : String) (limit : Nat) :
    List CCGame → Store → Nat → Except PyErr (Store × Nat)
  | [], st, cnt => .ok (st, cnt)
  | g :: gs, st, cnt =>
      if limit ≤ cnt then .ok (st, cnt)
      else
        match g.pgn with
        | none => ccGames username limit gs st cnt
        | some p =>
            if p = "" then ccGames username limit gs st cnt
            else
              match ccExtract username p g with
              | .error e => .error e
              | .ok doc =>
                  if find_one st "chesscom" p then ccGames username limit gs st cnt
                  else ccGames username limit gs (create_document st doc) (cnt + 1)

/-- The outer archive loop of `import_chesscom` (lines 83-124): fetch each
archive URL in order, skip it on a non-200 status, process its games, and
break once the inserted count reaches `limit`.  Returns the loop outcome and
the list of archive URLs actually fetched. -/
def ccOuter (fetch : String → Nat × List CCGame) (username : String) (limit : Nat) :
    List String → Store → Nat → Except PyErr (Store × Nat) × List String
  | [], st, cnt => (.ok (st, cnt), [])
  | url :: rest, st, cnt =>
      let resp := fetch url
      if resp.1 ≠ 200 then
        let r := ccOuter fetch username limit rest st cnt
        (r.1, url :: r.2)
      else
        match ccGames username limit resp.2 st cnt with
        | .error e => (.error e, [url])
        | .ok (st2, cnt2) =>
            if limit ≤ cnt2 then (.ok (st2, cnt2), [url])
            else
              let r := ccOuter fetch username limit rest st2 cnt2
              (r.1, url :: r.2)

/-- Python list slice `l[-m:]` as used on line 80: for `m ≥ 1` the last
`min m (length l)` entries; for `m = 0` Python returns the whole list. -/
def pyTakeLast (m : Nat) (l : List α) : List α :=
  if m = 0 then l else l.drop (l.length - m)

/-- The chess.com upstream, as seen by one import request: the archive-index
response status, the archive URL list in its body (oldest first, per the
platform), and the per-archive response (status and game list). -/
structure CCUpstream where
  archivesStatus : Nat
  archives : List String
  fetchArchive : String → Nat × List CCGame

/-- src/schemas.py `ImportRequest`: username plus optional months and limit.
The boundary validation bounds are months 1-12 and limit 1-1000. -/
structure ImportRequest where
  username : String
  months : Option Nat
  limit : Option Nat
  deriving DecidableEq

/-- The JSON object an import endpoint returns. -/
structure ImportResponse where
  source : String
  username : String
  inserted : Nat
  deriving DecidableEq

/-- How an import request can fail: a raised `HTTPException` carrying a
status and detail, or an unhandled Python exception (a 500 to the client). -/
inductive ApiError
  | httpError (status : Nat) (detail : String)
  | pyError (e : PyErr)
  deriving DecidableEq

/-- The chess.com archive-index URL for a username (line 76). -/
def ccArchivesUrl (username : String) : String :=
  "https://api.chess.com/pub/player/" ++ username ++ "/games/archives"

/-- `import_chesscom` (src/main.py lines 68-126).  Normalizes the username
(strip then lower-case), defaults months and limit with Python `or`, fails
with a 400 when the archive index request is not a 200, takes the last
`months` archive entries, iterates them reversed (newest first), and returns
the final store, the response object, and the URL fetch log. -/
def importChesscom (req : ImportRequest) (up : CCUpstream) (st : Store) :
    Except ApiError (Store × ImportResponse) × List String :=
  let username := pyLower (pyStrip req.username)
  let months := pyOr req.months 1
  let limit := pyOr req.limit 50
  let aurl := ccArchivesUrl username
  if up.archivesStatus ≠ 200 then
    (.error (.httpError 400 ("chess.com user not found or no archives: " ++ username)), [aurl])
  else
    let r := ccOuter up.fetchArchive username limit (pyTakeLast months up.archives).reverse st 0
    match r.1 with
    | .error e => (.error (.pyError e), aurl :: r.2)
    | .ok (st2, cnt) =>
        (.ok (st2, { source := "chesscom", username := username, inserted := cnt }), aurl :: r.2)

/-- The `user` object nested inside a lichess player side. -/
structure LiUser where
  name : Option String
  deriving DecidableEq

/-- A lichess player side (`players.white` / `players.black`).  `user` is
`some` when the `user` key holds an object; `none` covers the absent key (the
code defaults it to an empty mapping). -/
structure LiSide where
  user : Option LiUser
  deriving DecidableEq

/-- The `opening` field of a lichess game line: absent (or null), an object
carrying an optional name, or a flat string (line 175 branches on
`isinstance(..., dict)`). -/
inductive LiOpeningVal
  | absent
  | odict (name : Option String)
  | ostr (s : String)
  deriving DecidableEq

/-- One parsed lichess NDJSON game object, restricted to the fields
the import reads.  `playersWhite`/`playersBlack` are `some` when the nested
`players.<color>` object is present and truthy; `white`/`black` are the flat
fallback fields; `lastMoveAt` is the millisecond epoch integer. -/
structure LiGame where
  pgn : Option String
  pgnStr : Option String
  playersWhite : Option LiSide
  playersBlack : Option LiSide
  white : Option String
  black : Option String
  rated : Option JVal
  speed : Option String
  timeControl : Option String
  status : Option String
  lastMoveAt : Option Int
  opening : LiOpeningVal
  deriving DecidableEq

/-- `players.<color>.get("user", {}).get("name")` for one side (part of
lines 163-164). -/
def liSideName : Option LiSide → Option String
  | none => none
  | some side => (side.user.getD { name := none }).name

/-- Lines 163-164: nested player name `or` flat field `or None`. -/
def liName (nested : Option LiSide) (flat : Option String) : Option String :=
  pyOrNone (pyOrStr (liSideName nested) flat)

/-- Line 165: `bool(g.get("rated")) if g.get("rated") is not None else None`.
An absent key and a JSON null both make the getter return Python `None`. -/
def liRated : Option JVal → Option Bool
  | none => none
  | some .jnull => none
  | some v => some v.pyBool

/-- Lines 169-174: end time from `lastMoveAt` milliseconds when truthy
(nonzero), at second granularity. -/
def liEndTime (lastMoveAt : Option Int) : Option Int :=
  match lastMoveAt with
  | none => none
  | some ms => if ms = 0 then none else some (ms / 1000)

/-- Line 175: opening name from the nested object, or the flat value. -/
def liOpeningName : LiOpeningVal → Option String
  | .absent => none
  | .odict n => n
  | .ostr s => some s

/-- Lines 163-194: build the normalized `Game` document for one lichess game
line (after the pgn guard has supplied `pgnText`). -/
def liExtract (username pgnText : String) (g : LiGame) : Game :=
  { source := "lichess"
  , username := username
  , white := liName g.playersWhite g.white
  , black := liName g.playersBlack g.black
  , pgn := pgnText
  , rated := liRated g.rated
  , speed := pyOrNone g.speed
  , time_control := pyOrNone g.timeControl
  , result := pyOrNone g.status
  , end_time := liEndTime g.lastMoveAt
  , opening := liOpeningName g.opening }

/-- One line of the lichess NDJSON response: blank (falsy), not valid JSON
(the `json.loads` call raises and the line is skipped), or a parsed game. -/
inductive LiLine
  | blank
  | malformed
  | game (g : LiGame)
  deriving DecidableEq

/-- The line loop of `import_lichess` (lines 151-196): skip blank and
unparsable lines, skip games without pgn text (`pgn or pgnStr`), extract,
skip duplicates of the (lichess, pgn) key, otherwise insert and count.  The
loop has no client-side cap check. -/
def liLines (username : String) : List LiLine → Store → Nat → Store × Nat
  | [], st, cnt => (st, cnt)
  | .blank :: ls, st, cnt => liLines username ls st cnt
  | .malformed :: ls, st, cnt => liLines username ls st cnt
  | .game g :: ls, st, cnt =>
      match pyOrStr g.pgn g.pgnStr with
      | none => liLines username ls st cnt
      | some p =>
          if p = "" then liLines username ls st cnt
          else
            let doc := liExtract username p g
            if find_one st "lichess" p then liLines username ls st cnt
            else liLines username ls (create_document st doc) (cnt + 1)

/-- The lichess upstream, as seen by one import request: the response status
and the NDJSON body as a list of lines. -/
structure LiUpstream where
  status : Nat
  lines : List LiLine

/-- The lichess export URL for a username with the `max` cap the code sends
as a request parameter (lines 135-143). -/
def liGamesUrl (username : String) (maxGames : Nat) : String :=
  "https://lichess.org/api/games/user/" ++ username ++ "?max=" ++ toString maxGames

/-- `import_lichess` (src/main.py lines 129-198).  Normalizes the username
(strip only, no lower-casing), defaults the limit with Python `or` and passes
it upstream as the cap, fails with a 400 when the response is not a 200, and
otherwise folds the line loop over the body. -/
def importLichess (req : ImportRequest) (up : LiUpstream) (st : Store) :
    Except ApiError (Store × ImportResponse) × List String :=
  let username := pyStrip req.username
  let limit := pyOr req.limit 50
  let url := liGamesUrl username limit
  if up.status ≠ 200 then
    (.error (.httpError 400 ("lichess user not found or API error: " ++ username)), [url])
  else
    let r := liLines username up.lines st 0
    (.ok (r.1, { source := "lichess", username := username, inserted := r.2 }), [url])

/-- The exact-match filter `list_games` passes to the gateway: an optional
source value and an optional username value. -/
def matchesFilt (srcF usrF : Option String) (g : Game) : Bool :=
  (match srcF with
   | none => true
   | some s => g.source == s) &&
  (match usrF with
   | none => true
   | some u => g.username == u)

/-- Modelled from the spec: `find_many`/`get_documents` of the Persistence
Gateway (the `database` module is not among the sources).  Per spec 4.1 it
returns up to `limit` records matching the exact-field filter, in storage
order. -/
def get_documents (st : Store) (srcF usrF : Option String) (limit : Nat) : List Game :=
  (st.filter (matchesFilt srcF usrF)).take limit

/-- The JSON object `list_games` returns.  (The `_id` stringification and the
ISO serialization of timestamp fields on lines 215-222 are presentation-only
rewrites of each returned item and do not change which or how many items are
returned.) -/
structure GamesResponse where
  count : Nat
  items : List Game
  deriving DecidableEq

/-- `list_games` (src/main.py lines 201-223): build the filter from whichever
of source/username are truthy (Python `if source:` skips both `None` and the
empty string), query the gateway, and return the count with the items. -/
def list_games (source username : Option String) (limit : Nat) (st : Store) : GamesResponse :=
  let srcF := if pyTruthyStr source then source else none
  let usrF := if pyTruthyStr username then username else none
  let docs := get_documents st srcF usrF limit
  { count := docs.length, items := docs }

/-- The JSON object `start_demo` returns. -/
structure DemoResponse where
  sessionId : String
  speed : String
  minutes : Int
  increment : Int
  deriving DecidableEq

/-- `start_demo` (src/main.py lines 226-234): reject a speed outside the
three allowed values, then reject negative time values, else return a session
payload.  The generated uuid is passed in as `sessionId`. -/
def start_demo (speed : String) (minutes increment : Int) (sessionId : String) :
    Except ApiError DemoResponse :=
  if ¬ (speed = "bullet" ∨ speed = "blitz" ∨ speed = "rapid") then
    .error (.httpError 400 "Invalid speed")
  else if minutes < 0 ∨ increment < 0 then
    .error (.httpError 400 "Invalid time values")
  else
    .ok { sessionId := sessionId, speed := speed, minutes := minutes, increment := increment }

/-! Concrete fixtures used to exercise the definitions in closed theorems. -/

/-- A chess.com game record with every field absent. -/
def ccGameBase : CCGame :=
  { pgn := none, white := none, black := none, time_control := none,
    time_class := none, end_time := none, rated := none }

/-- A minimal chess.com game record carrying only a pgn. -/
def ccg (p : String) : CCGame :=
  { ccGameBase with pgn := some p }

/-- The document `ccExtract` produces for `ccg p` under username `u`. -/
def ccDoc (u p : String) : Game :=
  { source := "chesscom", username := u, white := none, black := none, pgn := p,
    rated := none, speed := none, time_control := none, result := none,
    end_time := none, opening := none }

/-- A lichess game record with every field absent. -/
def liGameBase : LiGame :=
  { pgn := none, pgnStr := none, playersWhite := none, playersBlack := none,
    white := none, black := none, rated := none, speed := none,
    timeControl := none, status := none, lastMoveAt := none, opening := .absent }

/-- A minimal lichess game record carrying only a pgn. -/
def lig (p : String) : LiGame :=
  { liGameBase with pgn := some p }

/-- The document `liExtract` produces for `lig p` under username `u`. -/
def liDoc (u p : String) : Game :=
  { source := "lichess", username := u, white := none, black := none, pgn := p,
    rated := none, speed := none, time_control := none, result := none,
    end_time := none, opening := none }

/-- A chess.com game whose player objects are present but whose white result
field is missing: the input on which line 97 raises `TypeError`. -/
def c1game : CCGame :=
  { ccGameBase with
      pgn := some "1. e4 e5",
      white := some { username := some "alice", result := none },
      black := some { username := some "bob", result := some "win" } }

/-- An upstream whose single archive contains `c1game`. -/
def c1up : CCUpstream :=
  { archivesStatus := 200, archives := ["m1"],
    fetchArchive := fun _ => (200, [c1game]) }

/-- A request with limit 1 against an archive holding two distinct games:
the first run caps at 1 insert, so the second run is not a no-op. -/
def c4req : ImportRequest := { username := "u", months := none, limit := some 1 }

/-- The upstream for the C4 counterexample: one archive, two games. -/
def c4up : CCUpstream :=
  { archivesStatus := 200, archives := ["m1"],
    fetchArchive := fun _ => (200, [ccg "p1", ccg "p2"]) }

/-- The store after the first C4 run: only the first game was inserted. -/
def c4store1 : Store := [ccDoc "u" "p1"]

/-- The store after the second C4 run: the second game is inserted as well. -/
def c4store2 : Store := [ccDoc "u" "p1", ccDoc "u" "p2"]

/-- A default-limit request for the idempotence witnesses. -/
def c4wreq : ImportRequest := { username := "u", months := none, limit := none }

/-- An upstream with one archive holding one game. -/
def c4wup : CCUpstream :=
  { archivesStatus := 200, archives := ["m1"],
    fetchArchive := fun _ => (200, [ccg "p1"]) }

/-- A lichess upstream with one parsed game line. -/
def c4lup : LiUpstream := { status := 200, lines := [.game (lig "q1")] }

/-- Request selecting both archives with limit 1: the cap stops the outer
loop before the older archive is fetched. -/
def c5req : ImportRequest := { username := "u", months := some 2, limit := some 1 }

/-- Two monthly archives (oldest first, as the platform lists them), each
carrying one insertable game. -/
def c5up : CCUpstream :=
  { archivesStatus := 200, archives := ["a1", "a2"],
    fetchArchive := fun url => if url = "a2" then (200, [ccg "p2"]) else (200, [ccg "p1"]) }

/-- The request whose import hits the `TypeError` in `c1game`. -/
def c1req : ImportRequest := { username := "alice", months := none, limit := none }

/-- A chess.com game whose player objects both carry result fields. -/
def c1bothres : CCGame :=
  { ccGameBase with
      pgn := some "1. d4",
      white := some { username := some "a", result := some "1-0" },
      black := some { username := some "b", result := some "0-1" } }

/-- A lichess body mixing a blank line, an unparsable line and one game. -/
def c7lup : LiUpstream :=
  { status := 200, lines := [.blank, .malformed, .game (lig "q1")] }

/-- A one-month request for the archive-selection witness. -/
def c5wreq : ImportRequest := { username := "u", months := some 1, limit := none }

/-- A single empty archive for the archive-selection witness. -/
def c5wup : CCUpstream :=
  { archivesStatus := 200, archives := ["a"], fetchArchive := fun _ => (200, []) }

/-- The store after importing `c4lup` into an empty store. -/
def c4lstore : Store := [liDoc "u" "q1"]

/-- A two-record store with distinct sources and usernames. -/
def c8store : Store := [liDoc "alice" "x", ccDoc "bob" "y"]

/-! Helper lemmas about the store and the loop bodies. -/

theorem pyOr_pos (v : Option Nat) (d : Nat) (hd : 0 < d) : 0 < pyOr v d := by
  cases v with
  | none => exact hd
  | some n =>
      by_cases h : n = 0
      · simp [pyOr, h, hd]
      · simp [pyOr, h]; omega

theorem find_one_create (st : Store) (g : Game) (src p : String) :
    find_one (create_document st g) src p =
      (find_one st src p || (g.source == src && g.pgn == p)) := by
  simp [find_one, create_document]

theorem ccExtract_fields (u p : String) (g : CCGame) (doc : Game)
    (h : ccExtract u p g = .ok doc) : doc.source = "chesscom" ∧ doc.pgn = p := by
  unfold ccExtract at h
  rcases hr : ccResult g.white g.black with e | res <;> rw [hr] at h
  · exact absurd h (by simp)
  · simp only [Except.ok.injEq] at h
    rw [← h]
    exact ⟨rfl, rfl⟩

theorem ccGames_stop (u : String) (limit : Nat) (gs : List CCGame) (st : Store) (cnt : Nat)
    (h : limit ≤ cnt) : ccGames u limit gs st cnt = .ok (st, cnt) := by
  cases gs with
  | nil => rfl
  | cons g gs => simp [ccGames, h]

theorem ccGames_le (u : String) (limit : Nat) :
    ∀ (gs : List CCGame) (st : Store) (cnt : Nat) (st2 : Store) (cnt2 : Nat),
      ccGames u limit gs st cnt = .ok (st2, cnt2) → cnt ≤ limit → cnt2 ≤ limit := by
  intro gs
  induction gs with
  | nil =>
      intro st cnt st2 cnt2 h hle
      simp only [ccGames, Except.ok.injEq, Prod.mk.injEq] at h
      omega
  | cons g gs ih =>
      intro st cnt st2 cnt2 h hle
      simp only [ccGames] at h
      by_cases hc : limit ≤ cnt
      · rw [if_pos hc] at h
        simp only [Except.ok.injEq, Prod.mk.injEq] at h
        omega
      · rw [if_neg hc] at h
        split at h
        · exact ih _ _ _ _ h hle
        · split at h
          · exact ih _ _ _ _ h hle
          · split at h
            · exact absurd h (by simp)
            · split at h
              · exact ih _ _ _ _ h hle
              · exact ih _ _ _ _ h (by omega)

theorem ccGames_mono_key (u : String) (limit : Nat) :
    ∀ (gs : List CCGame) (st : Store) (cnt : Nat) (st2 : Store) (cnt2 : Nat),
      ccGames u limit gs st cnt = .ok (st2, cnt2) →
      ∀ src p, find_one st src p = true → find_one st2 src p = true := by
  intro gs
  induction gs with
  | nil =>
      intro st cnt st2 cnt2 h src p hf
      simp only [ccGames, Except.ok.injEq, Prod.mk.injEq] at h
      rw [← h.1]
      exact hf
  | cons g gs ih =>
      intro st cnt st2 cnt2 h src p hf
      simp only [ccGames] at h
      by_cases hc : limit ≤ cnt
      · rw [if_pos hc] at h
        simp only [Except.ok.injEq, Prod.mk.injEq] at h
        rw [← h.1]
        exact hf
      · rw [if_neg hc] at h
        split at h
        · exact ih _ _ _ _ h src p hf
        · split at h
          · exact ih _ _ _ _ h src p hf
          · split at h
            · exact absurd h (by simp)
            · split at h
              · exact ih _ _ _ _ h src p hf
              · exact ih _ _ _ _ h src p (by simp [find_one_create, hf])

theorem ccGames_covers (u : String) (limit : Nat) :
    ∀ (gs : List CCGame) (st : Store) (cnt : Nat) (st2 : Store) (cnt2 : Nat),
      ccGames u limit gs st cnt = .ok (st2, cnt2) → cnt2 < limit →
      ∀ g ∈ gs, ∀ p, g.pgn = some p → p ≠ "" →
        (∃ doc, ccExtract u p g = .ok doc) ∧ find_one st2 "chesscom" p = true := by
  intro gs
  induction gs with
  | nil =>
      intro st cnt st2 cnt2 h hlt g hg
      exact absurd hg (by simp)
  | cons g0 gs ih =>
      intro st cnt st2 cnt2 h hlt g hg p hp hpe
      simp only [ccGames] at h
      by_cases hc : limit ≤ cnt
      · rw [if_pos hc] at h
        simp only [Except.ok.injEq, Prod.mk.injEq] at h
        omega
      · rw [if_neg hc] at h
        split at h
        next hpgn =>
          rcases List.mem_cons.mp hg with rfl | hgs
          · rw [hpgn] at hp
            exact absurd hp (by simp)
          · exact ih _ _ _ _ h hlt g hgs p hp hpe
        next q hpgn =>
          split at h
          next hqe =>
            rcases List.mem_cons.mp hg with rfl | hgs
            · rw [hpgn] at hp
              injection hp with hqp
              exact absurd (hqp ▸ hqe) hpe
            · exact ih _ _ _ _ h hlt g hgs p hp hpe
          next hqe =>
            split at h
            next e hext => exact absurd h (by simp)
            next doc hext =>
              split at h
              next hf =>
                rcases List.mem_cons.mp hg with rfl | hgs
                · rw [hpgn] at hp
                  injection hp with hqp
                  exact ⟨⟨doc, hqp ▸ hext⟩,
                    ccGames_mono_key u limit gs _ _ _ _ h "chesscom" p (hqp ▸ hf)⟩
                · exact ih _ _ _ _ h hlt g hgs p hp hpe
              next hf =>
                have hfields := ccExtract_fields u q g0 doc hext
                have hfc : find_one (create_document st doc) "chesscom" q = true := by
                  simp [find_one_create, hfields.1, hfields.2]
                rcases List.mem_cons.mp hg with rfl | hgs
                · rw [hpgn] at hp
                  injection hp with hqp
                  exact ⟨⟨doc, hqp ▸ hext⟩,
                    ccGames_mono_key u limit gs _ _ _ _ h "chesscom" p (hqp ▸ hfc)⟩
                · exact ih _ _ _ _ h hlt g hgs p hp hpe

theorem ccGames_allDup (u : String) (limit : Nat) (hl : 0 < limit) :
    ∀ (gs : List CCGame) (st : Store),
      (∀ g ∈ gs, ∀ p, g.pgn = some p → p ≠ "" →
        (∃ doc, ccExtract u p g = .ok doc) ∧ find_one st "chesscom" p = true) →
      ccGames u limit gs st 0 = .ok (st, 0) := by
  intro gs
  induction gs with
  | nil =>
      intro st hcov
      rfl
  | cons g gs ih =>
      intro st hcov
      simp only [ccGames]
      rw [if_neg (by omega : ¬ limit ≤ 0)]
      rcases hp : g.pgn with _ | p
      · simp only [hp]
        exact ih st (fun g2 hg2 => hcov g2 (List.mem_cons_of_mem _ hg2))
      · simp only [hp]
        by_cases hpe : p = ""
        · rw [if_pos hpe]
          exact ih st (fun g2 hg2 => hcov g2 (List.mem_cons_of_mem _ hg2))
        · rw [if_neg hpe]
          obtain ⟨⟨doc, hdoc⟩, hfind⟩ := hcov g (List.mem_cons_self g gs) p hp hpe
          simp only [hdoc]
          rw [if_pos hfind]
          exact ih st (fun g2 hg2 => hcov g2 (List.mem_cons_of_mem _ hg2))

theorem ccOuter_le (f : String → Nat × List CCGame) (u : String) (limit : Nat) :
    ∀ (urls : List String) (st : Store) (cnt : Nat) (st2 : Store) (cnt2 : Nat),
      (ccOuter f u limit urls st cnt).1 = .ok (st2, cnt2) → cnt ≤ limit → cnt2 ≤ limit := by
  intro urls
  induction urls with
  | nil =>
      intro st cnt st2 cnt2 h hle
      simp only [ccOuter, Except.ok.injEq, Prod.mk.injEq] at h
      omega
  | cons url rest ih =>
      intro st cnt st2 cnt2 h hle
      simp only [ccOuter] at h
      split at h
      · exact ih _ _ _ _ h hle
      · split at h
        next e hg => exact absurd h (by simp)
        next st3 cnt3 hg =>
          split at h
          next hbrk =>
            simp only [Except.ok.injEq, Prod.mk.injEq] at h
            have := ccGames_le u limit _ _ _ _ _ hg hle
            omega
          next hbrk =>
            exact ih _ _ _ _ h (ccGames_le u limit _ _ _ _ _ hg hle)

theorem ccOuter_mono_key (f : String → Nat × List CCGame) (u : String) (limit : Nat) :
    ∀ (urls : List String) (st : Store) (cnt : Nat) (st2 : Store) (cnt2 : Nat),
      (ccOuter f u limit urls st cnt).1 = .ok (st2, cnt2) →
      ∀ src p, find_one st src p = true → find_one st2 src p = true := by
  intro urls
  induction urls with
  | nil =>
      intro st cnt st2 cnt2 h src p hf
      simp only [ccOuter, Except.ok.injEq, Prod.mk.injEq] at h
      rw [← h.1]
      exact hf
  | cons url rest ih =>
      intro st cnt st2 cnt2 h src p hf
      simp only [ccOuter] at h
      split at h
      · exact ih _ _ _ _ h src p hf
      · split at h
        next e hg => exact absurd h (by simp)
        next st3 cnt3 hg =>
          split at h
          next hbrk =>
            simp only [Except.ok.injEq, Prod.mk.injEq] at h
            rw [← h.1]
            exact ccGames_mono_key u limit _ _ _ _ _ hg src p hf
          next hbrk =>
            exact ih _ _ _ _ h src p (ccGames_mono_key u limit _ _ _ _ _ hg src p hf)

theorem ccOuter_covers (f : String → Nat × List CCGame) (u : String) (limit : Nat) :
    ∀ (urls : List String) (st : Store) (cnt : Nat) (st2 : Store) (cnt2 : Nat),
      (ccOuter f u limit urls st cnt).1 = .ok (st2, cnt2) → cnt2 < limit →
      ∀ url ∈ urls, (f url).1 = 200 →
        ∀ g ∈ (f url).2, ∀ p, g.pgn = some p → p ≠ "" →
          (∃ doc, ccExtract u p g = .ok doc) ∧ find_one st2 "chesscom" p = true := by
  intro urls
  induction urls with
  | nil =>
      intro st cnt st2 cnt2 h hlt url hurl
      exact absurd hurl (by simp)
  | cons url0 rest ih =>
      intro st cnt st2 cnt2 h hlt url hurl hst g hg p hp hpe
      simp only [ccOuter] at h
      split at h
      next hbad =>
        rcases List.mem_cons.mp hurl with rfl | hrest
        · exact absurd hst hbad
        · exact ih _ _ _ _ h hlt url hrest hst g hg p hp hpe
      next hok =>
        split at h
        next e hg2 => exact absurd h (by simp)
        next st3 cnt3 hg2 =>
          split at h
          next hbrk =>
            simp only [Except.ok.injEq, Prod.mk.injEq] at h
            omega
          next hbrk =>
            rcases List.mem_cons.mp hurl with rfl | hrest
            · obtain ⟨hdoc, hfind⟩ := ccGames_covers u limit _ _ _ _ _ hg2
                (by omega) g hg p hp hpe
              exact ⟨hdoc, ccOuter_mono_key f u limit rest _ _ _ _ h "chesscom" p hfind⟩
            · exact ih _ _ _ _ h hlt url hrest hst g hg p hp hpe

theorem ccOuter_allDup (f : String → Nat × List CCGame) (u : String) (limit : Nat)
    (hl : 0 < limit) :
    ∀ (urls : List String) (st : Store),
      (∀ url ∈ urls, (f url).1 = 200 →
        ∀ g ∈ (f url).2, ∀ p, g.pgn = some p → p ≠ "" →
          (∃ doc, ccExtract u p g = .ok doc) ∧ find_one st "chesscom" p = true) →
      (ccOuter f u limit urls st 0).1 = .ok (st, 0) := by
  intro urls
  induction urls with
  | nil => intro st hcov; rfl
  | cons url rest ih =>
      intro st hcov
      simp only [ccOuter]
      split
      next hbad =>
        exact ih st (fun u2 hu2 => hcov u2 (List.mem_cons_of_mem _ hu2))
      next hok =>
        have hst : (f url).1 = 200 := of_not_not hok
        simp only [ccGames_allDup u limit hl _ st
          (hcov url (List.mem_cons_self url rest) hst)]
        rw [if_neg (by omega : ¬ limit ≤ 0)]
        exact ih st (fun u2 hu2 => hcov u2 (List.mem_cons_of_mem _ hu2))

theorem ccOuter_skip (f : String → Nat × List CCGame) (u : String) (limit : Nat)
    (url : String) (rest : List String) (st : Store) (cnt : Nat)
    (hbad : (f url).1 ≠ 200) :
    (ccOuter f u limit (url :: rest) st cnt).1 = (ccOuter f u limit rest st cnt).1 := by
  simp only [ccOuter]
  rw [if_pos hbad]

theorem ccOuter_calls_take (f : String → Nat × List CCGame) (u : String) (limit : Nat) :
    ∀ (urls : List String) (st : Store) (cnt : Nat),
      ∃ n, (ccOuter f u limit urls st cnt).2 = urls.take n := by
  intro urls
  induction urls with
  | nil => intro st cnt; exact ⟨0, rfl⟩
  | cons url rest ih =>
      intro st cnt
      simp only [ccOuter]
      split
      next hbad =>
        obtain ⟨n, hn⟩ := ih st cnt
        refine ⟨n + 1, ?_⟩
        show url :: (ccOuter f u limit rest st cnt).2 = (url :: rest).take (n + 1)
        rw [List.take_succ_cons, hn]
      next hok =>
        rcases hg : ccGames u limit (f url).2 st cnt with e | pr
        · refine ⟨1, ?_⟩
          simp only [hg]
          rfl
        · obtain ⟨st3, cnt3⟩ := pr
          by_cases hbrk : limit ≤ cnt3
          · refine ⟨1, ?_⟩
            simp only [hg]
            rw [if_pos hbrk]
            rfl
          · obtain ⟨n, hn⟩ := ih st3 cnt3
            refine ⟨n + 1, ?_⟩
            simp only [hg]
            rw [if_neg hbrk]
            show url :: (ccOuter f u limit rest st3 cnt3).2 = (url :: rest).take (n + 1)
            rw [List.take_succ_cons, hn]

theorem ccOuter_calls_full (f : String → Nat × List CCGame) (u : String) (limit : Nat) :
    ∀ (urls : List String) (st : Store) (cnt : Nat) (st2 : Store) (cnt2 : Nat),
      (ccOuter f u limit urls st cnt).1 = .ok (st2, cnt2) → cnt2 < limit →
      (ccOuter f u limit urls st cnt).2 = urls := by
  intro urls
  induction urls with
  | nil => intro st cnt st2 cnt2 h hlt; rfl
  | cons url rest ih =>
      intro st cnt st2 cnt2 h hlt
      simp only [ccOuter] at h ⊢
      split at h
      next hbad =>
        rw [if_pos hbad]
        show url :: (ccOuter f u limit rest st cnt).2 = url :: rest
        rw [ih _ _ _ _ h hlt]
      next hok =>
        rw [if_neg hok]
        rcases hg : ccGames u limit (f url).2 st cnt with e | pr
        · simp only [hg] at h
          exact absurd h (by simp)
        · obtain ⟨st3, cnt3⟩ := pr
          simp only [hg] at h
          simp only [hg]
          by_cases hbrk : limit ≤ cnt3
          · rw [if_pos hbrk] at h
            simp only [Except.ok.injEq, Prod.mk.injEq] at h
            omega
          · rw [if_neg hbrk] at h ⊢
            show url :: (ccOuter f u limit rest st3 cnt3).2 = url :: rest
            rw [ih _ _ _ _ h hlt]

theorem liExtract_fields (u p : String) (g : LiGame) :
    (liExtract u p g).source = "lichess" ∧ (liExtract u p g).pgn = p :=
  ⟨rfl, rfl⟩

theorem liLines_mono_key (u : String) :
    ∀ (ls : List LiLine) (st : Store) (cnt : Nat) (src p : String),
      find_one st src p = true → find_one (liLines u ls st cnt).1 src p = true := by
  intro ls
  induction ls with
  | nil => intro st cnt src p hf; exact hf
  | cons l ls ih =>
      intro st cnt src p hf
      cases l with
      | blank => exact ih st cnt src p hf
      | malformed => exact ih st cnt src p hf
      | game g =>
          simp only [liLines]
          split
          · exact ih st cnt src p hf
          next q hq =>
            split
            · exact ih st cnt src p hf
            · split
              · exact ih st cnt src p hf
              · exact ih _ _ src p (by simp [find_one_create, hf])

theorem liLines_covers (u : String) :
    ∀ (ls : List LiLine) (st : Store) (cnt : Nat) (g : LiGame),
      .game g ∈ ls → ∀ p, pyOrStr g.pgn g.pgnStr = some p → p ≠ "" →
      find_one (liLines u ls st cnt).1 "lichess" p = true := by
  intro ls
  induction ls with
  | nil =>
      intro st cnt g hg
      exact absurd hg (by simp)
  | cons l ls ih =>
      intro st cnt g hg p hp hpe
      rcases List.mem_cons.mp hg with hl | hls
      · rw [← hl]
        simp only [liLines]
        split
        next hq =>
          rw [hp] at hq
          exact absurd hq (by simp)
        next q hq =>
          rw [hp] at hq
          injection hq with hpq
          subst hpq
          split
          next hqe => exact absurd hqe hpe
          next hqe =>
            split
            next hfq => exact liLines_mono_key u ls st cnt "lichess" p hfq
            next hfq =>
              refine liLines_mono_key u ls _ _ "lichess" p ?_
              simp [find_one_create, (liExtract_fields u p g).1, (liExtract_fields u p g).2]
      · cases l with
        | blank => exact ih st cnt g hls p hp hpe
        | malformed => exact ih st cnt g hls p hp hpe
        | game g2 =>
            simp only [liLines]
            split
            · exact ih st cnt g hls p hp hpe
            · split
              · exact ih st cnt g hls p hp hpe
              · split
                · exact ih st cnt g hls p hp hpe
                · exact ih _ _ g hls p hp hpe

theorem liLines_allDup (u : String) :
    ∀ (ls : List LiLine) (st : Store) (cnt : Nat),
      (∀ g : LiGame, .game g ∈ ls → ∀ p, pyOrStr g.pgn g.pgnStr = some p → p ≠ "" →
        find_one st "lichess" p = true) →
      liLines u ls st cnt = (st, cnt) := by
  intro ls
  induction ls with
  | nil => intro st cnt hcov; rfl
  | cons l ls ih =>
      intro st cnt hcov
      cases l with
      | blank => exact ih st cnt (fun g hg => hcov g (List.mem_cons_of_mem _ hg))
      | malformed => exact ih st cnt (fun g hg => hcov g (List.mem_cons_of_mem _ hg))
      | game g =>
          simp only [liLines]
          split
          · exact ih st cnt (fun g2 hg2 => hcov g2 (List.mem_cons_of_mem _ hg2))
          next q hq =>
            split
            next hqe =>
              exact ih st cnt (fun g2 hg2 => hcov g2 (List.mem_cons_of_mem _ hg2))
            next hqe =>
              rw [if_pos (hcov g (List.mem_cons_self (LiLine.game g) ls) q hq hqe)]
              exact ih st cnt (fun g2 hg2 => hcov g2 (List.mem_cons_of_mem _ hg2))

/-! The claims. -/

/-- C6: a source game record with no pgn text (absent or empty) is never
persisted by either import and contributes nothing to the inserted count:
processing such a game is the identity on the loop state. -/
theorem spec_c6_missing_pgn_never_persisted :
    (∀ (u : String) (limit : Nat) (g : CCGame) (gs : List CCGame) (st : Store) (cnt : Nat),
       g.pgn = none ∨ g.pgn = some "" →
       ccGames u limit (g :: gs) st cnt = ccGames u limit gs st cnt) ∧
    (∀ (u : String) (g : LiGame) (ls : List LiLine) (st : Store) (cnt : Nat),
       pyOrStr g.pgn g.pgnStr = none ∨ pyOrStr g.pgn g.pgnStr = some "" →
       liLines u (.game g :: ls) st cnt = liLines u ls st cnt) := by
  constructor
  · intro u limit g gs st cnt hp
    by_cases hc : limit ≤ cnt
    · rw [ccGames_stop u limit _ st cnt hc, ccGames_stop u limit _ st cnt hc]
    · simp only [ccGames]
      rw [if_neg hc]
      rcases hp with hp | hp
      · simp [hp]
      · simp [hp]
  · intro u g ls st cnt hp
    simp only [liLines]
    rcases hp with hp | hp
    · simp [hp]
    · simp [hp]

/-- Witness for C6: a pgn-less chess.com game and a pgn-less lichess game
are both skipped. -/
theorem spec_c6_missing_pgn_never_persisted_witness :
    ccGames "u" 50 [ccGameBase] [] 0 = ccGames "u" 50 [] [] 0 ∧
    liLines "u" [.game liGameBase] [] 0 = liLines "u" [] [] 0 :=
  ⟨spec_c6_missing_pgn_never_persisted.1 "u" 50 ccGameBase [] [] 0 (Or.inl (by decide)),
   spec_c6_missing_pgn_never_persisted.2 "u" liGameBase [] [] 0 (Or.inl (by decide))⟩

/-- C7: per-item upstream failures are non-fatal and skipped.  A non-200
single-archive fetch leaves the chess.com import outcome unchanged; a blank
or unparsable lichess line leaves the line loop unchanged; and with a 200
response the lichess import returns an inserted count. -/
theorem spec_c7_per_item_failures :
    (∀ (f : String → Nat × List CCGame) (u : String) (limit : Nat) (url : String)
       (rest : List String) (st : Store) (cnt : Nat),
       (f url).1 ≠ 200 →
       (ccOuter f u limit (url :: rest) st cnt).1 = (ccOuter f u limit rest st cnt).1) ∧
    (∀ (u : String) (ls : List LiLine) (st : Store) (cnt : Nat),
       liLines u (.blank :: ls) st cnt = liLines u ls st cnt) ∧
    (∀ (u : String) (ls : List LiLine) (st : Store) (cnt : Nat),
       liLines u (.malformed :: ls) st cnt = liLines u ls st cnt) ∧
    (∀ (req : ImportRequest) (up : LiUpstream) (st : Store),
       up.status = 200 →
       (importLichess req up st).1 =
         .ok ((liLines (pyStrip req.username) up.lines st 0).1,
              { source := "lichess", username := pyStrip req.username,
                inserted := (liLines (pyStrip req.username) up.lines st 0).2 })) := by
  refine ⟨ccOuter_skip, fun u ls st cnt => rfl, fun u ls st cnt => rfl, ?_⟩
  intro req up st hst
  simp only [importLichess]
  rw [if_neg (not_not_intro hst)]

/-- Witness for C7: concrete skipped archive, skipped lines, and a returned
count on a mixed lichess body. -/
theorem spec_c7_per_item_failures_witness :
    (ccOuter (fun _ => (404, [ccg "p1"])) "u" 50 ["a", "b"] [] 0).1 =
      (ccOuter (fun _ => (404, [ccg "p1"])) "u" 50 ["b"] [] 0).1 ∧
    liLines "u" [.blank] [] 0 = liLines "u" [] [] 0 ∧
    liLines "u" [.malformed] [] 0 = liLines "u" [] [] 0 ∧
    (importLichess c4wreq c7lup []).1 =
      .ok ((liLines (pyStrip c4wreq.username) c7lup.lines [] 0).1,
           { source := "lichess", username := pyStrip c4wreq.username,
             inserted := (liLines (pyStrip c4wreq.username) c7lup.lines [] 0).2 }) :=
  ⟨spec_c7_per_item_failures.1 (fun _ => (404, [ccg "p1"])) "u" 50 "a" ["b"] [] 0 (by decide),
   spec_c7_per_item_failures.2.1 "u" [] [] 0,
   spec_c7_per_item_failures.2.2.1 "u" [] [] 0,
   spec_c7_per_item_failures.2.2.2 c4wreq c7lup [] rfl⟩

/-- C9: in the lichess import, a present non-null source `rated` value is
stored as its Python truthiness coercion; an absent or null value leaves the
stored field absent. -/
theorem spec_c9_lichess_rated (u p : String) (g : LiGame) :
    (g.rated = none → (liExtract u p g).rated = none) ∧
    (g.rated = some .jnull → (liExtract u p g).rated = none) ∧
    (∀ v, g.rated = some v → v ≠ .jnull → (liExtract u p g).rated = some v.pyBool) := by
  refine ⟨?_, ?_, ?_⟩
  · intro h
    simp [liExtract, liRated, h]
  · intro h
    simp [liExtract, liRated, h]
  · intro v hv hnn
    cases v with
    | jnull => exact absurd rfl hnn
    | jbool b => simp [liExtract, liRated, hv]
    | jnum n => simp [liExtract, liRated, hv]
    | jstr s => simp [liExtract, liRated, hv]

/-- Witness for C9: absent stays absent, null stays absent, and a non-empty
string is coerced to true. -/
theorem spec_c9_lichess_rated_witness :
    (liExtract "u" "p" liGameBase).rated = none ∧
    (liExtract "u" "p" { liGameBase with rated := some .jnull }).rated = none ∧
    (liExtract "u" "p" { liGameBase with rated := some (.jstr "yes") }).rated = some true := by
  refine ⟨(spec_c9_lichess_rated "u" "p" liGameBase).1 rfl,
    (spec_c9_lichess_rated "u" "p" _).2.1 rfl, ?_⟩
  have h := (spec_c9_lichess_rated "u" "p" { liGameBase with rated := some (.jstr "yes") }).2.2
    (.jstr "yes") rfl (by decide)
  exact (by decide : (JVal.jstr "yes").pyBool = true) ▸ h

/-- C10: for a valid speed, the demo endpoint rejects with a 400 exactly when
a time value is negative, so zero time values succeed and return the session
payload. -/
theorem spec_c10_start_demo (speed : String) (m i : Int) (sid : String)
    (hs : speed = "bullet" ∨ speed = "blitz" ∨ speed = "rapid") :
    ((∃ d, start_demo speed m i sid = .error (.httpError 400 d)) ↔ (m < 0 ∨ i < 0)) ∧
    (0 ≤ m → 0 ≤ i →
      start_demo speed m i sid =
        .ok { sessionId := sid, speed := speed, minutes := m, increment := i }) := by
  constructor
  · constructor
    · rintro ⟨d, hd⟩
      by_cases hbad : m < 0 ∨ i < 0
      · exact hbad
      · unfold start_demo at hd
        rw [if_neg (not_not_intro hs), if_neg hbad] at hd
        exact absurd hd (by simp)
    · intro hbad
      refine ⟨"Invalid time values", ?_⟩
      unfold start_demo
      rw [if_neg (not_not_intro hs), if_pos hbad]
  · intro hm hi
    unfold start_demo
    rw [if_neg (not_not_intro hs), if_neg (by omega : ¬ (m < 0 ∨ i < 0))]

/-- Witness for C10: blitz with zero minutes and zero increment succeeds. -/
theorem spec_c10_start_demo_witness :
    start_demo "blitz" 0 0 "s" =
      .ok { sessionId := "s", speed := "blitz", minutes := 0, increment := 0 } :=
  (spec_c10_start_demo "blitz" 0 0 "s" (Or.inr (Or.inl rfl))).2 (by decide) (by decide)

theorem matchesFilt_spec (a b : Option String) (g : Game) (h : matchesFilt a b g = true) :
    (∀ s, a = some s → g.source = s) ∧ (∀ u, b = some u → g.username = u) := by
  simp only [matchesFilt, Bool.and_eq_true] at h
  constructor
  · intro s hs
    rw [hs] at h
    simpa using h.1
  · intro u hu
    rw [hu] at h
    simpa using h.2

theorem matchesFilt_none (g : Game) : matchesFilt none none g = true := rfl

theorem filter_matchesFilt_none (st : Store) : st.filter (matchesFilt none none) = st := by
  induction st with
  | nil => rfl
  | cons g st ih => simp [List.filter_cons, matchesFilt_none, ih]

/-- C8: every listed item matches the supplied (truthy) source and username
filters exactly; omitting both filters lists the store unfiltered; the count
equals the number of returned items; and the number of items is at most the
limit. -/
theorem spec_c8_list_games (source username : Option String) (limit : Nat) (st : Store)
    (h1 : 1 ≤ limit) (h2 : limit ≤ 200) :
    ((list_games source username limit st).count =
        (list_games source username limit st).items.length) ∧
    ((list_games source username limit st).items.length ≤ limit) ∧
    (∀ g ∈ (list_games source username limit st).items,
       (∀ s, source = some s → s ≠ "" → g.source = s) ∧
       (∀ u, username = some u → u ≠ "" → g.username = u)) ∧
    (source = none → username = none →
       (list_games source username limit st).items = st.take limit) := by
  refine ⟨rfl, ?_, ?_, ?_⟩
  · simp only [list_games, get_documents]
    rw [List.length_take]
    exact min_le_left _ _
  · intro g hg
    simp only [list_games, get_documents] at hg
    have hfil := List.mem_filter.mp (List.mem_of_mem_take hg)
    have hspec := matchesFilt_spec _ _ g hfil.2
    constructor
    · intro s hs hse
      refine hspec.1 s ?_
      rw [hs, if_pos (by simp [pyTruthyStr, hse])]
    · intro u hu hue
      refine hspec.2 u ?_
      rw [hu, if_pos (by simp [pyTruthyStr, hue])]
  · intro hsn hun
    subst hsn
    subst hun
    simp [list_games, get_documents, pyTruthyStr, filter_matchesFilt_none]

/-- Witness for C8: on a two-record store the filtered listing satisfies the
count and cap clauses, and the unfiltered listing is the truncated store. -/
theorem spec_c8_list_games_witness :
    ((list_games (some "lichess") (some "alice") 10 c8store).count =
        (list_games (some "lichess") (some "alice") 10 c8store).items.length) ∧
    ((list_games (some "lichess") (some "alice") 10 c8store).items.length ≤ 10) ∧
    (list_games none none 10 c8store).items = c8store.take 10 :=
  ⟨(spec_c8_list_games (some "lichess") (some "alice") 10 c8store (by decide) (by decide)).1,
   (spec_c8_list_games (some "lichess") (some "alice") 10 c8store (by decide) (by decide)).2.1,
   (spec_c8_list_games none none 10 c8store (by decide) (by decide)).2.2.2 rfl rfl⟩

/-- C2 (amended): neither import endpoint validates username emptiness.
Each one always issues its upstream request first, built from the normalized
(trimmed, and for chess.com lower-cased) username, whatever that username is;
rejection can only come from the upstream response. -/
theorem spec_c2_no_empty_username_validation (req : ImportRequest) (upc : CCUpstream)
    (upl : LiUpstream) (st : Store) :
    (importChesscom req upc st).2.head? =
      some (ccArchivesUrl (pyLower (pyStrip req.username))) ∧
    (importLichess req upl st).2 =
      [liGamesUrl (pyStrip req.username) (pyOr req.limit 50)] := by
  constructor
  · simp only [importChesscom]
    split
    · rfl
    · split <;> rfl
  · simp only [importLichess]
    split <;> rfl

/-- C2 counterexample: a username that is empty after trimming is not
rejected as a client error before the external call: the archive-index
request is issued (with the empty username in the URL) and the import
returns success. -/
theorem spec_c2_counterexample :
    importChesscom { username := "   ", months := none, limit := none }
        { archivesStatus := 200, archives := [], fetchArchive := fun _ => (404, []) } [] =
      (.ok ([], { source := "chesscom", username := "", inserted := 0 }),
       [ccArchivesUrl ""]) := by decide

/-- C3: the chess.com inserted count never exceeds the limit, and both loop
levels enforce the cap: once the count has reached the limit the inner loop
returns without touching the remaining games, and the outer loop stops
fetching any further archives. -/
theorem spec_c3_limit_cap :
    (∀ (req : ImportRequest) (up : CCUpstream) (st st2 : Store) (r : ImportResponse)
       (calls : List String),
       importChesscom req up st = (.ok (st2, r), calls) →
       r.inserted ≤ pyOr req.limit 50) ∧
    (∀ (u : String) (limit : Nat) (gs : List CCGame) (st : Store) (cnt : Nat),
       limit ≤ cnt → ccGames u limit gs st cnt = .ok (st, cnt)) ∧
    (∀ (f : String → Nat × List CCGame) (u : String) (limit : Nat) (url : String)
       (rest : List String) (st st2 : Store) (cnt cnt2 : Nat),
       (f url).1 = 200 → ccGames u limit (f url).2 st cnt = .ok (st2, cnt2) →
       limit ≤ cnt2 →
       ccOuter f u limit (url :: rest) st cnt = (.ok (st2, cnt2), [url])) := by
  refine ⟨?_, ccGames_stop, ?_⟩
  · intro req up st st2 r calls h
    simp only [importChesscom] at h
    split at h
    · simp at h
    · split at h
      next e hr => simp at h
      next st3 cnt3 hr =>
        simp only [Prod.mk.injEq, Except.ok.injEq] at h
        obtain ⟨⟨hst, hr2⟩, hcalls⟩ := h
        rw [← hr2]
        exact ccOuter_le _ _ _ _ _ _ _ _ hr (Nat.zero_le _)
  · intro f u limit url rest st st2 cnt cnt2 hst hg hbrk
    simp only [ccOuter]
    rw [if_neg (by simp [hst])]
    simp only [hg]
    rw [if_pos hbrk]

/-- Witness for C3: a limit-1 import over a two-game archive inserts one
game; the inner loop returns untouched at the cap; the outer loop fetches
only the first of two archives once the cap is hit there. -/
theorem spec_c3_limit_cap_witness :
    ({ source := "chesscom", username := "u", inserted := 1 } : ImportResponse).inserted ≤
      pyOr c4req.limit 50 ∧
    ccGames "u" 1 [ccg "p9"] [] 1 = .ok ([], 1) ∧
    ccOuter c4up.fetchArchive "u" 1 ["m1", "m2"] [] 0 = (.ok (c4store1, 1), ["m1"]) :=
  ⟨spec_c3_limit_cap.1 c4req c4up [] c4store1
      { source := "chesscom", username := "u", inserted := 1 }
      [ccArchivesUrl "u", "m1"] (by decide),
   spec_c3_limit_cap.2.1 "u" 1 [ccg "p9"] [] 1 (by decide),
   spec_c3_limit_cap.2.2 c4up.fetchArchive "u" 1 "m1" ["m2"] [] c4store1 0 1 (by decide)
     (by decide) (by decide)⟩

/-- C5 (amended): with months M and at least M archives listed, the
chess.com import walks a newest-first prefix of the M most recent
archive entries, stopping early once the insert limit is reached; whenever
the final inserted count is below the limit, the archives fetched are exactly
the M most recent ones, newest first. -/
theorem spec_c5_archive_selection (req : ImportRequest) (up : CCUpstream) (st : Store)
    (hM : pyOr req.months 1 ≤ up.archives.length) :
    (∃ n, (importChesscom req up st).2 =
        ccArchivesUrl (pyLower (pyStrip req.username)) ::
          ((up.archives.drop (up.archives.length - pyOr req.months 1)).reverse.take n)) ∧
    (∀ (st2 : Store) (r : ImportResponse) (calls : List String),
       importChesscom req up st = (.ok (st2, r), calls) →
       r.inserted < pyOr req.limit 50 →
       calls = ccArchivesUrl (pyLower (pyStrip req.username)) ::
         (up.archives.drop (up.archives.length - pyOr req.months 1)).reverse) := by
  have hm1 : pyOr req.months 1 ≠ 0 := by
    have := pyOr_pos req.months 1 (by omega)
    omega
  have htl : pyTakeLast (pyOr req.months 1) up.archives =
      up.archives.drop (up.archives.length - pyOr req.months 1) := by
    simp [pyTakeLast, hm1]
  constructor
  · by_cases hup : up.archivesStatus ≠ 200
    · refine ⟨0, ?_⟩
      simp only [importChesscom]
      rw [if_pos hup]
      rfl
    · obtain ⟨n, hn⟩ := ccOuter_calls_take up.fetchArchive (pyLower (pyStrip req.username))
        (pyOr req.limit 50) ((pyTakeLast (pyOr req.months 1) up.archives).reverse) st 0
      refine ⟨n, ?_⟩
      simp only [importChesscom]
      rw [if_neg hup, ← htl]
      split
      · simp [hn]
      · simp [hn]
  · intro st2 r calls h hlt
    simp only [importChesscom] at h
    split at h
    · simp at h
    · split at h
      next e hr => simp at h
      next st3 cnt3 hr =>
        simp only [Prod.mk.injEq, Except.ok.injEq] at h
        obtain ⟨⟨hst2, hr2⟩, hcalls⟩ := h
        have hcnt3 : cnt3 < pyOr req.limit 50 := by
          rw [← hr2] at hlt
          simpa using hlt
        have hfull := ccOuter_calls_full up.fetchArchive (pyLower (pyStrip req.username))
          (pyOr req.limit 50) ((pyTakeLast (pyOr req.months 1) up.archives).reverse)
          st 0 st3 cnt3 hr hcnt3
        rw [← hcalls, hfull, htl]

/-- C5 counterexample: with months 2, two listed archives and limit 1, the
run fetches the newest archive, hits the cap there, and never fetches the
second-most-recent archive, so it does not process exactly the 2 most recent
archives. -/
theorem spec_c5_counterexample :
    (importChesscom c5req c5up []).2 = [ccArchivesUrl "u", "a2"] ∧
    "a1" ∉ (importChesscom c5req c5up []).2 := by
  constructor
  · decide
  · decide

/-- Witness for C5: a one-month import over one empty archive fetches exactly
that archive, and its full fetch log is the index call followed by it. -/
theorem spec_c5_archive_selection_witness :
    (∃ n, (importChesscom c5wreq c5wup []).2 =
        ccArchivesUrl (pyLower (pyStrip c5wreq.username)) ::
          ((c5wup.archives.drop (c5wup.archives.length - pyOr c5wreq.months 1)).reverse.take n)) ∧
    [ccArchivesUrl "u", "a"] = ccArchivesUrl (pyLower (pyStrip c5wreq.username)) ::
        (c5wup.archives.drop (c5wup.archives.length - pyOr c5wreq.months 1)).reverse :=
  ⟨(spec_c5_archive_selection c5wreq c5wup [] (by decide)).1,
   (spec_c5_archive_selection c5wreq c5wup [] (by decide)).2 []
     { source := "chesscom", username := "u", inserted := 0 }
     [ccArchivesUrl "u", "a"] (by decide) (by decide)⟩

/-- C1 (amended): per chess.com game, the stored `result` is the
concatenation white result / black result when both player objects are
present and both carry result fields; it is absent when either player object
is absent; but when both player objects are present and either result field
is missing, extraction raises a `TypeError` instead of completing with the
field absent. -/
theorem spec_c1_result_field (u p : String) (g : CCGame) :
    (∀ w b wr br, g.white = some w → g.black = some b →
       w.result = some wr → b.result = some br →
       (ccExtract u p g).map Game.result = .ok (some (wr ++ "/" ++ br))) ∧
    ((g.white = none ∨ g.black = none) →
       (ccExtract u p g).map Game.result = .ok none) ∧
    (∀ w b, g.white = some w → g.black = some b →
       (w.result = none ∨ b.result = none) →
       ccExtract u p g = .error .typeError) := by
  refine ⟨?_, ?_, ?_⟩
  · intro w b wr br hw hb hwr hbr
    simp [ccExtract, ccResult, Except.map, hw, hb, hwr, hbr]
  · intro h
    rcases h with h | h
    · simp [ccExtract, ccResult, Except.map, h]
    · rcases hw : g.white with _ | w
      · simp [ccExtract, ccResult, Except.map, hw, h]
      · simp [ccExtract, ccResult, Except.map, hw, h]
  · intro w b hw hb hres
    rcases hres with h | h
    · simp [ccExtract, ccResult, hw, hb, h]
    · rcases hwr : w.result with _ | wr
      · simp [ccExtract, ccResult, hw, hb, hwr]
      · simp [ccExtract, ccResult, hw, hb, hwr, h]

/-- C1 counterexample: extraction does not complete without failure in all
other cases: on a game whose player objects are present but whose white
result field is missing, the whole import fails with a `TypeError` rather
than storing the record with `result` absent. -/
theorem spec_c1_counterexample :
    (importChesscom c1req c1up []).1 = .error (.pyError .typeError) := by decide

/-- Witness for C1: both-results concatenation, absent player object, and
the crashing missing-result case, each on a concrete game. -/
theorem spec_c1_result_field_witness :
    (ccExtract "u" "1. d4" c1bothres).map Game.result = .ok (some ("1-0" ++ "/" ++ "0-1")) ∧
    (ccExtract "u" "p" ccGameBase).map Game.result = .ok none ∧
    ccExtract "alice" "1. e4 e5" c1game = .error .typeError :=
  ⟨(spec_c1_result_field "u" "1. d4" c1bothres).1 _ _ _ _ rfl rfl rfl rfl,
   (spec_c1_result_field "u" "p" ccGameBase).2.1 (Or.inl rfl),
   (spec_c1_result_field "alice" "1. e4 e5" c1game).2.2 _ _ rfl rfl (Or.inl rfl)⟩

/-- C4 (amended): re-running an import with identical upstream data and the
store left by the first run inserts 0 records, provided (for chess.com) the
first run's inserted count stayed below the limit; the lichess import is
unconditionally idempotent given identical upstream data.  (When the
chess.com cap was hit, the second run can insert games the early stop
skipped.) -/
theorem spec_c4_idempotent :
    (∀ (req : ImportRequest) (up : CCUpstream) (st st1 : Store) (r1 : ImportResponse)
       (c1 : List String),
       importChesscom req up st = (.ok (st1, r1), c1) →
       r1.inserted < pyOr req.limit 50 →
       ∃ c2, importChesscom req up st1 =
         (.ok (st1, { source := "chesscom", username := pyLower (pyStrip req.username),
                      inserted := 0 }), c2)) ∧
    (∀ (req : ImportRequest) (up : LiUpstream) (st st1 : Store) (r1 : ImportResponse)
       (c1 : List String),
       importLichess req up st = (.ok (st1, r1), c1) →
       importLichess req up st1 =
         (.ok (st1, { source := "lichess", username := pyStrip req.username,
                      inserted := 0 }), c1)) := by
  constructor
  · intro req up st st1 r1 c1 h hlt
    have hl : 0 < pyOr req.limit 50 := pyOr_pos _ _ (by omega)
    simp only [importChesscom] at h ⊢
    split at h
    · simp at h
    next hup =>
      split at h
      next e hr => simp at h
      next st3 cnt3 hr =>
        simp only [Prod.mk.injEq, Except.ok.injEq] at h
        obtain ⟨⟨hst1, hr1⟩, hc1⟩ := h
        have hcnt3 : cnt3 < pyOr req.limit 50 := by
          rw [← hr1] at hlt
          simpa using hlt
        have hcov := ccOuter_covers up.fetchArchive (pyLower (pyStrip req.username))
          (pyOr req.limit 50) ((pyTakeLast (pyOr req.months 1) up.archives).reverse)
          st 0 st3 cnt3 hr hcnt3
        rw [hst1] at hcov
        have hall := ccOuter_allDup up.fetchArchive (pyLower (pyStrip req.username))
          (pyOr req.limit 50) hl ((pyTakeLast (pyOr req.months 1) up.archives).reverse)
          st1 hcov
        rw [if_neg hup]
        simp only [hall]
        exact ⟨_, rfl⟩
  · intro req up st st1 r1 c1 h
    simp only [importLichess] at h ⊢
    split at h
    · simp at h
    next hup =>
      simp only [Prod.mk.injEq, Except.ok.injEq] at h
      obtain ⟨⟨hst1, hr1⟩, hc1⟩ := h
      rw [if_neg hup]
      have hcov : ∀ g : LiGame, .game g ∈ up.lines →
          ∀ p, pyOrStr g.pgn g.pgnStr = some p → p ≠ "" →
          find_one st1 "lichess" p = true := by
        intro g hg p hp hpe
        rw [← hst1]
        exact liLines_covers (pyStrip req.username) up.lines st 0 g hg p hp hpe
      have hall := liLines_allDup (pyStrip req.username) up.lines st1 0 hcov
      simp only [hall]
      rw [← hc1]

/-- C4 counterexample: limit 1 against an archive with two distinct games.
The first run from an empty store inserts 1 and stops at the cap; the second
run with identical upstream data inserts 1 more record, not 0. -/
theorem spec_c4_counterexample :
    (importChesscom c4req c4up []).1 =
      .ok (c4store1, { source := "chesscom", username := "u", inserted := 1 }) ∧
    (importChesscom c4req c4up c4store1).1 =
      .ok (c4store2, { source := "chesscom", username := "u", inserted := 1 }) := by
  constructor
  · decide
  · decide

/-- Witness for C4: a one-game chess.com import far below its limit re-runs
with 0 inserts, and a one-line lichess import re-runs with 0 inserts. -/
theorem spec_c4_idempotent_witness :
    (∃ c2, importChesscom c4wreq c4wup c4store1 =
        (.ok (c4store1, { source := "chesscom", username := pyLower (pyStrip c4wreq.username),
                          inserted := 0 }), c2)) ∧
    importLichess c4wreq c4lup c4lstore =
      (.ok (c4lstore, { source := "lichess", username := pyStrip c4wreq.username,
                        inserted := 0 }), [liGamesUrl "u" 50]) :=
  ⟨spec_c4_idempotent.1 c4wreq c4wup [] c4store1
      { source := "chesscom", username := "u", inserted := 1 }
      [ccArchivesUrl "u", "m1"] (by decide) (by decide),
   spec_c4_idempotent.2 c4wreq c4lup [] c4lstore
      { source := "lichess", username := "u", inserted := 1 }
      [liGamesUrl "u" 50] (by decide)⟩
